import Mathlib

/-!
Verification of the charo-torrent core against its specification.

Part 1 embeds the bencode decoder (package bencode, functions Decode, decode,
benReader.readBenString, readBenInt, readBenList, readBenDictStruct, structInfo,
CheckEnd, AssertDictStart) over an explicit model of the Go bytes.Buffer it
reads from, including the lastRead discipline that governs UnreadByte.

Part 2 embeds the torrent coordinator (package torrent, file torrent.go):
the state a Torrent carries and the coordinator operations the claims are
about, as pure state transformers that also report the channel sends and
other external actions they perform as a list of effects.

Go byte strings are modelled as List Nat; Go field identifiers and bencode
dictionary keys are byte strings and are modelled the same way.
-/

/-- Result of a Go call that can fail. eof models the distinguished io.EOF
error value; emsg models an error built with errors.New (only the constant
prefix of the message is kept, dynamic suffixes such as offending field names
do not influence control flow); eabort models a Go panic. -/
inductive GoErr where
  | eof
  | emsg (s : String)
  | eabort (s : String)
deriving DecidableEq, Repr

/-- Model of the Go bytes.Buffer the decoder reads from. past holds the
consumed bytes most recent first, rest the unread bytes, lastReadOk the
lastRead flag of bytes.Buffer (true after a successful read operation,
false initially, after UnreadByte and after a failed ReadByte). -/
structure Buf where
  past : List Nat
  rest : List Nat
  lastReadOk : Bool
deriving DecidableEq, Repr

def Buf.ofList (data : List Nat) : Buf := ⟨[], data, false⟩

/-- bytes.Buffer.Len: the number of unread bytes. -/
def Buf.Len (b : Buf) : Nat := b.rest.length

/-- bytes.Buffer.ReadByte. On an empty buffer Go calls Reset (dropping all
data, so nothing can be unread afterwards) and returns io.EOF. -/
def Buf.ReadByte : Buf → (Except GoErr Nat) × Buf
  | ⟨_, [], _⟩ => (.error .eof, ⟨[], [], false⟩)
  | ⟨past, x :: xs, _⟩ => (.ok x, ⟨x :: past, xs, true⟩)

/-- bytes.Buffer.UnreadByte: fails unless the previous operation was a
successful read; clears the lastRead flag, so two consecutive calls cannot
both succeed; moves the read offset back one byte when possible. -/
def Buf.UnreadByte (b : Buf) : (Except GoErr Unit) × Buf :=
  if !b.lastReadOk then
    (.error (.emsg "bytes.Buffer: UnreadByte: previous operation was not a successful read"), b)
  else
    match b.past with
    | [] => (.ok (), { b with lastReadOk := false })
    | x :: xs => (.ok (), ⟨xs, x :: b.rest, false⟩)

/-- Splits off the prefix of l up to and including the first occurrence of
delim; none when delim does not occur. -/
def takeThroughDelim (delim : Nat) : List Nat → Option (List Nat × List Nat)
  | [] => none
  | x :: xs =>
    if x = delim then some ([x], xs)
    else match takeThroughDelim delim xs with
      | none => none
      | some (line, after) => some (x :: line, after)

/-- bytes.Buffer.ReadString(delim): reads through the first occurrence of
delim; when delim is absent it consumes everything remaining and reports
io.EOF alongside the data. In both cases lastRead is set to a successful
read, exactly as in readSlice of bytes.Buffer. -/
def Buf.ReadString (delim : Nat) (b : Buf) : (List Nat × Except GoErr Unit) × Buf :=
  match takeThroughDelim delim b.rest with
  | some (line, after) => ((line, .ok ()), ⟨line.reverse ++ b.past, after, true⟩)
  | none => ((b.rest, .error .eof), ⟨b.rest.reverse ++ b.past, [], true⟩)

/-- bytes.Buffer.Next(n): consumes min n Len bytes; lastRead records a
successful read only when at least one byte was taken. -/
def Buf.Next (n : Nat) (b : Buf) : List Nat × Buf :=
  let taken := b.rest.take n
  (taken, ⟨taken.reverse ++ b.past, b.rest.drop n, decide (0 < taken.length)⟩)

/-- Decimal digit run to a number, accumulator form; none on a non-digit
byte. -/
def digitsValAux : Nat → List Nat → Option Nat
  | acc, [] => some acc
  | acc, c :: cs => if 48 ≤ c ∧ c ≤ 57 then digitsValAux (acc * 10 + (c - 48)) cs else none

/-- Decimal digit run to a number, most significant first; none on an empty
run or a non-digit byte. -/
def digitsVal : List Nat → Option Nat
  | [] => none
  | l => digitsValAux 0 l

/-- strconv.ParseInt with base 10 and bitSize 64: optional single sign,
then a nonempty digit run, rejected outside the signed 64 bit range. -/
def goParseInt (s : List Nat) : Except GoErr Int :=
  match s with
  | [] => .error (.emsg "strconv.ParseInt: invalid syntax")
  | c :: cs =>
    let signed : Bool × List Nat :=
      if c = 45 then (true, cs) else if c = 43 then (false, cs) else (false, s)
    match digitsVal signed.2 with
    | none => .error (.emsg "strconv.ParseInt: invalid syntax")
    | some n =>
      let v : Int := if signed.1 then -(n : Int) else (n : Int)
      if v < -(2 ^ 63) ∨ (2 ^ 63 - 1 : Int) < v then
        .error (.emsg "strconv.ParseInt: value out of range")
      else .ok v

/-- benReader.readBenString: read the length run up to the colon, parse it,
then take that many bytes. A negative parsed length would make the Go slice
expression in Buffer.Next panic. -/
def readBenString (b : Buf) : (Except GoErr (List Nat)) × Buf :=
  match b.ReadString 58 with
  | ((_, .error err), b1) => (.error err, b1)
  | ((lenbytes, .ok ()), b1) =>
    match goParseInt lenbytes.dropLast with
    | .error err => (.error err, b1)
    | .ok n =>
      if n < 0 then (.error (.eabort "slice bounds out of range"), b1)
      else
        match b1.Next n.toNat with
        | (str, b2) =>
          if str.length ≠ n.toNat then
            (.error (.emsg "length of string does not correspond to his actual length"), b2)
          else (.ok str, b2)

/-- benReader.readBenInt: read through the terminating e, require the
leading i, parse the digits in between. -/
def readBenInt (b : Buf) : (Except GoErr Int) × Buf :=
  match b.ReadString 101 with
  | ((_, .error err), b1) => (.error err, b1)
  | ((benInt, .ok ()), b1) =>
    if benInt.headD 0 ≠ 105 then
      (.error (.emsg "Wanted integer but bencoded hasn't. benInt :"), b1)
    else
      match goParseInt (benInt.drop 1).dropLast with
      | .error err => (.error err, b1)
      | .ok n => (.ok n, b1)

/-- benReader.CheckEnd: peek for the end byte e; consume it when present,
otherwise unread the probed byte. -/
def CheckEnd (b : Buf) : (Except GoErr Bool) × Buf :=
  match b.ReadByte with
  | (.error e, b1) => (.error e, b1)
  | (.ok c, b1) =>
    if c = 101 then (.ok true, b1)
    else
      match b1.UnreadByte with
      | (.ok (), b2) => (.ok false, b2)
      | (.error e, b2) => (.error e, b2)

/-- benReader.AssertDictStart. -/
def AssertDictStart (b : Buf) : (Except GoErr Unit) × Buf :=
  match b.ReadByte with
  | (.error e, b1) => (.error e, b1)
  | (.ok c, b1) =>
    if c ≠ 100 then (.error (.emsg "Bencoded has dict whereas data structure doesn't."), b1)
    else (.ok (), b1)

/-- One Go struct field as the reflection walk sees it: the field name, the
bencode tag ([] when the tag is absent, [45] is the dash that excludes the
field) and whether the empty tag is omit. Names and tags are byte strings. -/
structure BField where
  fname : List Nat
  benTag : List Nat
  omitEmpty : Bool
deriving DecidableEq, Repr

/-- The Go target types the claims exercise, as a reflection universe:
int covers the signed integer kinds, str covers string and byte-slice
fields, list a slice of a non-byte element type, struct a struct with
tagged fields, ptr a pointer. The map, bool, unsigned and interface kinds
of decode are not reached by any claim and are left out of the universe. -/
inductive BenType where
  | tint
  | tstr
  | tlist (elem : BenType)
  | tstruct (fields : List (BField × BenType))
  | tptr (elem : BenType)

/-- A decoded Go value of a BenType; a struct value is its fields by name. -/
inductive BenValue where
  | vint (i : Int)
  | vstr (s : List Nat)
  | vlist (xs : List BenValue)
  | vstruct (fields : List (List Nat × BenValue))

mutual
/-- The zero value reflect.New produces for a type of the universe. -/
def zeroVal : BenType → BenValue
  | .tint => .vint 0
  | .tstr => .vstr []
  | .tlist _ => .vlist []
  | .tstruct fs => .vstruct (zeroFields fs)
  | .tptr t => zeroVal t

def zeroFields : List (BField × BenType) → List (List Nat × BenValue)
  | [] => []
  | (f, t) :: rest => (f.fname, zeroVal t) :: zeroFields rest
end

/-- Append a value to the entry of key in an association list, creating the
entry at the end when absent; the list version of the fnames map update of
structInfo, whose values are question-mark joined name strings in Go. -/
def assocAppend (m : List (List Nat × List (List Nat))) (key : List Nat) (v : List Nat) :
    List (List Nat × List (List Nat)) :=
  if m.any (fun e => e.1 = key) then
    m.map (fun e => if e.1 = key then (e.1, e.2 ++ [v]) else e)
  else m ++ [(key, [v])]

/-- structInfo: walk the fields in declaration order building the nonOmit
name set (fields that must appear) and the key to candidate-field-names
map. A dash tag excludes the field; an absent or empty tag makes the field
name the key. -/
def structInfo (fs : List (BField × BenType)) : List (List Nat) × List (List Nat × List (List Nat)) :=
  fs.foldl
    (fun acc ft =>
      if ft.1.benTag = [45] then acc
      else
        let key := if ft.1.benTag = [] then ft.1.fname else ft.1.benTag
        let nonOmit := if ft.1.omitEmpty then acc.1 else acc.1 ++ [ft.1.fname]
        (nonOmit, assocAppend acc.2 key ft.1.fname))
    ([], [])

/-- reflect FieldByName on the type side: the declared type of the named
field. The names fed to it come from structInfo over the same field list,
so the lookup always succeeds; Go panics on an invalid field and the
default returned here is never reached. -/
def fieldType (fs : List (BField × BenType)) (n : List Nat) : BenType :=
  match fs.find? (fun ft => ft.1.fname = n) with
  | some ft => ft.2
  | none => .tint

/-- reflect FieldByName on the value side; same reachability remark as for
fieldType. -/
def fieldVal (cur : BenValue) (n : List Nat) : BenValue :=
  match cur with
  | .vstruct fields =>
    match fields.find? (fun e => e.1 = n) with
    | some e => e.2
    | none => .vint 0
  | _ => .vint 0

/-- Store a decoded field value back into the struct value. -/
def setField (cur : BenValue) (n : List Nat) (v : BenValue) : BenValue :=
  match cur with
  | .vstruct fields => .vstruct (fields.map (fun e => if e.1 = n then (e.1, v) else e))
  | other => other

/-- The rewind loop of readBenDictStruct: the Go for loop runs UnreadByte
once per byte the failed attempt consumed, aborting on the first UnreadByte
error; only the first call can succeed, so a rewind of two or more bytes
always aborts. -/
def unreadN : Nat → Buf → (Except GoErr Unit) × Buf
  | 0, b => (.ok (), b)
  | n + 1, b =>
    match b.UnreadByte with
    | (.ok (), b1) => unreadN n b1
    | (.error e, b1) => (.error e, b1)

/-- reflect.Append on the slice value being decoded into. decode reaches it
only with a slice-kinded value, so the fallthrough is never hit. -/
def benAppend (acc e : BenValue) : BenValue :=
  match acc with
  | .vlist xs => .vlist (xs ++ [e])
  | other => other

/-- Outcome of the candidate loop of readBenDictStruct for one key with
several struct-field candidates. -/
inductive CandRes where
  | success (cur : BenValue) (b : Buf)
  | fatal (e : GoErr) (b : Buf)
  | exhausted (b : Buf)

mutual
/-- decode: dispatch on the reflected kind of the target. Every recursive
call and loop iteration spends one unit of fuel; Decode supplies more fuel
than any terminating run can use, so the fuel branch is never reached from
it on the inputs considered here. -/
def decode : Nat → BenType → BenValue → Buf → (Except GoErr BenValue) × Buf
  | 0, _, _, b => (.error (.eabort "fuel"), b)
  | fuel + 1, t, cur, b =>
    match t with
    | .tptr te => decode fuel te cur b
    | .tint =>
      match readBenInt b with
      | (.ok n, b1) => (.ok (.vint n), b1)
      | (.error e, b1) => (.error e, b1)
    | .tstr =>
      match readBenString b with
      | (.ok s, b1) => (.ok (.vstr s), b1)
      | (.error e, b1) => (.error e, b1)
    | .tlist te =>
      match b.ReadByte with
      | (.error e, b1) => (.error e, b1)
      | (.ok c, b1) =>
        if c ≠ 108 then (.error (.emsg "Bencoded has list whereas data structure doesn't."), b1)
        else listLoop fuel te cur (zeroVal te) b1
    | .tstruct fs =>
      match AssertDictStart b with
      | (.error e, b1) => (.error e, b1)
      | (.ok (), b1) =>
        match structInfo fs with
        | (nonOmit, fnames) => dictLoop fuel fs nonOmit fnames cur b1

/-- readBenList loop: the single element value e is created once and reused
across iterations, exactly as in the Go code, so a slice-typed element
accumulates across elements. -/
def listLoop : Nat → BenType → BenValue → BenValue → Buf → (Except GoErr BenValue) × Buf
  | 0, _, _, _, b => (.error (.eabort "fuel"), b)
  | fuel + 1, te, acc, e, b =>
    match CheckEnd b with
    | (.error err, b1) => (.error err, b1)
    | (.ok true, b1) => (.ok acc, b1)
    | (.ok false, b1) =>
      match decode fuel te e b1 with
      | (.error err, b2) => (.error err, b2)
      | (.ok e1, b2) => listLoop fuel te (benAppend acc e1) e1 b2

/-- readBenDictStruct loop over the dictionary entries. -/
def dictLoop : Nat → List (BField × BenType) → List (List Nat) →
    List (List Nat × List (List Nat)) → BenValue → Buf → (Except GoErr BenValue) × Buf
  | 0, _, _, _, _, b => (.error (.eabort "fuel"), b)
  | fuel + 1, fs, nonOmit, fnames, cur, b =>
    match CheckEnd b with
    | (.error e, b1) => (.error e, b1)
    | (.ok true, b1) =>
      if nonOmit.isEmpty then (.ok cur, b1)
      else (.error (.emsg "Some filled of the struct were not filled and they were not to be ommited: "), b1)
    | (.ok false, b1) =>
      match readBenString b1 with
      | (.error e, b2) => (.error e, b2)
      | (.ok key, b2) =>
        match fnames.find? (fun e => e.1 = key) with
        | none => (.error (.emsg "No struct field with name: "), b2)
        | some entry =>
          match entry.2 with
          | [n1] =>
            let nonOmit1 := if nonOmit.contains n1 then nonOmit.erase n1 else nonOmit
            match decode fuel (fieldType fs n1) (fieldVal cur n1) b2 with
            | (.error e, b3) => (.error e, b3)
            | (.ok v1, b3) => dictLoop fuel fs nonOmit1 fnames (setField cur n1 v1) b3
          | names =>
            match candLoop fuel names nonOmit fs cur b2 with
            | .fatal e b3 => (.error e, b3)
            | .success cur1 b3 => dictLoop fuel fs nonOmit fnames cur1 b3
            | .exhausted b3 => dictLoop fuel fs nonOmit fnames cur b3

/-- The candidate loop of readBenDictStruct: try each candidate field in
declaration order; a mandatory candidate is an error; on decode failure run
the unread loop over the consumed bytes and, when it succeeds, try the next
candidate; when every candidate fails with a successful rewind Go leaves
the loop without returning the error, which exhausted records. -/
def candLoop : Nat → List (List Nat) → List (List Nat) → List (BField × BenType) →
    BenValue → Buf → CandRes
  | 0, _, _, _, _, b => .fatal (.eabort "fuel") b
  | _ + 1, [], _, _, _, b => .exhausted b
  | fuel + 1, n :: ns, nonOmit, fs, cur, b =>
    if nonOmit.contains n then
      .fatal (.emsg "Multiple fields with the same benTag and at least one of them is mandatory.") b
    else
      let lenBefore := b.Len
      match decode fuel (fieldType fs n) (fieldVal cur n) b with
      | (.ok v1, b1) => .success (setField cur n v1) b1
      | (.error _, b1) =>
        match unreadN (lenBefore - b1.Len) b1 with
        | (.ok (), b2) => candLoop fuel ns nonOmit fs cur b2
        | (.error e2, b2) => .fatal e2 b2
end

/-- Fuel handed to decode by Decode: enough for every terminating run on
the inputs the theorems below evaluate. -/
def decodeFuel (data : List Nat) : Nat := 2 * data.length + 16

/-- The inner decode run a Decode call performs, with its final buffer. -/
def decodeTop (data : List Nat) (te : BenType) : (Except GoErr BenValue) × Buf :=
  decode (decodeFuel data) te (zeroVal te) (Buf.ofList data)

/-- The buffer state decode leaves behind when Decode runs it. -/
def decodeFinalBuf (data : List Nat) (te : BenType) : Buf :=
  (decodeTop data te).2

/-- The trailing check of Decode: pass the inner error through, then probe
the buffer with ReadByte; a remaining byte (or any non EOF outcome) is the
unconsumed-buffer error. -/
def finishDecode : (Except GoErr BenValue) × Buf → Except GoErr BenValue
  | (.error e, _) => .error e
  | (.ok v, b1) =>
    match b1.ReadByte with
    | (.ok _, _) => .error (.emsg "data structure provided was filled but bencoded buffer wasn't consumed")
    | (.error e, _) =>
      if e = .eof then .ok v
      else .error (.emsg "data structure provided was filled but bencoded buffer wasn't consumed")

/-- bencode.Decode: require a pointer target, decode into its element, then
run the unconsumed-buffer check. -/
def Decode (data : List Nat) (t : BenType) : Except GoErr BenValue :=
  match t with
  | .tptr te => finishDecode (decodeTop data te)
  | _ => .error (.emsg "v should have a pointer type")

/-!
Part 2: the torrent coordinator (torrent.go). Channel sends, channel
closes, timer manipulations and dials escape the coordinator state; they
are recorded as effects. Pointer identity of a connInfo is modelled by the
cid field; a peer address is its IP byte string and port, compared exactly
as peerInActiveConns compares them (bytes.Equal on the IP plus the port).
-/

/-- A peer candidate: the address parts of tracker.Peer that torrent.go
compares and keys on (the half-open map key peer.P.String() is the address,
so the key is modelled by the ip and port pair). -/
structure Peer where
  ip : List Nat
  port : Nat
deriving DecidableEq, Repr

/-- One active connection as the coordinator sees it. cid models the Go
pointer identity of the connInfo. mall models stats.malliciousness(), whose
definition is outside torrent.go; modelled from the spec as a nonnegative
score (bytes contributed to failed pieces). peerBf models the peer bitfield
and numWant the remaining-wanted counter that reviewInterestsOnPieceDownload
decrements. -/
structure ConnInfo where
  cid : Nat
  peer : Peer
  mall : Nat
  supportDHT : Bool
  peerBf : List Bool
  numWant : Int
deriving DecidableEq, Repr

/-- Metainfo the coordinator reads: the piece length and the total length.
The metainfo package is outside torrent.go. -/
structure InfoDict where
  pieceLen : Nat
  totalLength : Nat
deriving DecidableEq, Repr

/-- Modelled from the spec: metainfo.Info.NumPieces (metainfo package, not
under src) is the number of SHA-1 piece hashes of the info dictionary, one
per fixed-size chunk with the last chunk possibly shorter, hence the
ceiling of totalLength over pieceLen. -/
def InfoDict.NumPieces (inf : InfoDict) : Nat :=
  (inf.totalLength + inf.pieceLen - 1) / inf.pieceLen

/-- Torrent.pieceLen: the metainfo piece length except for the last index,
which gets the total length modulo the piece length (t.length is set to
mi.Info.TotalLength() when the info arrives). -/
def InfoDict.pieceLenGo (inf : InfoDict) (i : Nat) : Nat :=
  if i = inf.NumPieces - 1 then inf.totalLength % inf.pieceLen
  else inf.pieceLen

/-- The per-piece state of the piece registry that the claims read. The
pieces type lives in a file outside src; modelled from the spec: the
registry owns a verified flag per piece and the owned-pieces bitmap equals
the verified set. -/
structure PiecesReg where
  verified : List Bool
deriving DecidableEq, Repr

/-- pieces.haveAll: every piece verified. -/
def PiecesReg.haveAll (p : PiecesReg) : Bool := p.verified.all (fun x => x)

/-- ownedPieces.Len(): the owned-pieces bitmap equals the verified set. -/
def PiecesReg.ownedLen (p : PiecesReg) : Nat := p.verified.count true

/-- Modelled from the spec: pieces.pieceHashed (file outside src) marks the
piece verified on a successful check; on failure it returns the blocks of
the piece to unrequested, which is below the granularity modelled here, and
the verified flag stays false. -/
def PiecesReg.pieceHashed (p : PiecesReg) (i : Nat) (ok : Bool) : PiecesReg :=
  if ok then { verified := p.verified.set i true } else p

/-- tracker.Event values submitted to the announcer. -/
inductive TrackerEvent where
  | noneEv
  | started
  | completed
  | stopped
deriving DecidableEq, Repr

/-- Externally visible actions of the coordinator: sends on a session
channel, channel closes, timer stops, announcer submissions, dials and the
client-level IP ban. -/
inductive Effect where
  | sendDrop (cid : Nat)
  | sendHaveInfo (cid : Nat)
  | sendBitfield (cid : Nat)
  | sendPort (cid : Nat)
  | sendHave (cid : Nat) (idx : Nat)
  | sendNotInterested (cid : Nat)
  | chokerReview
  | trackerSubmit (ev : TrackerEvent)
  | dhtAnnounce
  | closeDhtAnnounce
  | closeDownloadedDataC
  | closeClosedC
  | closeDropC
  | waitConnDrop (cid : Nat)
  | stopChokerTicker
  | stopTrackerTimer
  | stopDhtTimer
  | banIP (ip : List Nat)
  | dialPeer (p : Peer)
deriving DecidableEq, Repr

/-- The coordinator state of one Torrent (torrent.go struct Torrent),
restricted to the fields the claims and their operations touch, plus the
client configuration those operations read (cl.config.DisableTrackers,
cl.config.DisableDHT, cl.trackerAnnouncer, cl.dhtServer, cl.reserved,
cl.blackList, mi.Announce). Channels are represented by their closed flags;
info is mi.Info (none before the metadata arrives) and pieces is the
registry pointer (none before gotInfo). -/
structure Torrent where
  conns : List ConnInfo
  halfOpen : List Peer
  maxHalfOpenConns : Nat
  maxEstablishedConnections : Nat
  wantPeersThreshold : Nat
  peers : List Peer
  pieces : Option PiecesReg
  queuedForVerification : List Nat
  uploadEnabled : Bool
  downloadEnabled : Bool
  isClosed : Bool
  closedCClosed : Bool
  dropCClosed : Bool
  downloadedDataClosed : Bool
  info : Option InfoDict
  infoBytes : Option (List Nat)
  ownedInfoBlocks : List Bool
  tlength : Nat
  canAnnounceTracker : Bool
  canAnnounceDht : Bool
  dhtAnnounceActive : Bool
  numTrackerAnnouncesSend : Nat
  numDhtAnnounces : Nat
  announceURL : String
  disableTrackers : Bool
  disableDHT : Bool
  hasTrackerAnnouncer : Bool
  hasDhtServer : Bool
  clReservedDHT : Bool
  blackList : List (List Nat)
  statsPieceLensDownloaded : List Nat
deriving DecidableEq, Repr

/-- newTorrent with the client configuration cfgMax for
cl.config.MaxEstablishedConns; the remaining fields as newTorrent sets
them (maxHalfOpenConns 55, wantPeersThreshold 100, both announce sources
eligible, nothing known, nothing connected). -/
def newTorrentT (cfgMax : Nat) (disTr disDht hasTr hasDht : Bool) (ann : String) : Torrent :=
  { conns := []
    halfOpen := []
    maxHalfOpenConns := 55
    maxEstablishedConnections := cfgMax
    wantPeersThreshold := 100
    peers := []
    pieces := none
    queuedForVerification := []
    uploadEnabled := false
    downloadEnabled := false
    isClosed := false
    closedCClosed := false
    dropCClosed := false
    downloadedDataClosed := false
    info := none
    infoBytes := none
    ownedInfoBlocks := []
    tlength := 0
    canAnnounceTracker := true
    canAnnounceDht := true
    dhtAnnounceActive := false
    numTrackerAnnouncesSend := 0
    numDhtAnnounces := 0
    announceURL := ann
    disableTrackers := disTr
    disableDHT := disDht
    hasTrackerAnnouncer := hasTr
    hasDhtServer := hasDht
    clReservedDHT := false
    blackList := []
    statsPieceLensDownloaded := [] }

/-- Torrent.haveInfo: mi.Info is non-nil. -/
def Torrent.haveInfoT (t : Torrent) : Bool := t.info.isSome

/-- Torrent.dataTransferAllowed: transfer is allowed, or the info is still
needed. -/
def Torrent.dataTransferAllowed (t : Torrent) : Bool :=
  !t.haveInfoT || t.uploadEnabled || t.downloadEnabled

/-- Torrent.wantConns. -/
def Torrent.wantConns (t : Torrent) : Bool :=
  decide (t.conns.length < t.maxEstablishedConnections) && t.dataTransferAllowed

/-- Torrent.wantPeers. The Go code compares
float64(maxEstablishedConnections / len(conns)) with the constant 10/9 and,
below it, adds (1/ratio)*10 to the threshold; the quotient is Go integer
division, so the comparison holds exactly when that quotient is at most 1,
and the addition is then 10/quotient, that is 10 (the quotient 0 would need
more connections than the cap, which no reachable state has; Go would
convert an infinite float there, modelled as the same addition). -/
def Torrent.wantPeers (t : Torrent) : Bool :=
  let thr :=
    if 0 < t.conns.length ∧ t.maxEstablishedConnections / t.conns.length ≤ 1 then
      t.wantPeersThreshold + 10
    else t.wantPeersThreshold
  decide (t.peers.length < thr) && t.dataTransferAllowed

/-- Torrent.haveAll. -/
def Torrent.haveAllT (t : Torrent) : Bool :=
  t.haveInfoT &&
    (match t.pieces with
     | none => false
     | some reg => reg.haveAll)

/-- Torrent.infoWasDownloaded. -/
def Torrent.infoWasDownloaded (t : Torrent) : Bool := t.infoBytes.isSome

/-- Torrent.peerInActiveConns: an active connection shares the address. -/
def Torrent.peerInActiveConns (t : Torrent) (p : Peer) : Bool :=
  t.conns.any (fun ci => ci.peer.ip = p.ip ∧ ci.peer.port = p.port)

/-- Torrent.closeDhtAnnounce: a no-op without a DHT server or an active
announce; otherwise closes the announce and invalidates its channel. -/
def Torrent.closeDhtAnnounceF (t : Torrent) : Torrent × List Effect :=
  if !t.hasDhtServer || !t.dhtAnnounceActive then (t, [])
  else ({ t with dhtAnnounceActive := false }, [.closeDhtAnnounce])

/-- Torrent.sendAnnounceToTracker: dropped when trackers are disabled, no
announcer runs, or the metainfo has no announce URL; otherwise submits the
event and blocks further tracker announces until the timer fires. -/
def Torrent.sendAnnounceToTrackerF (t : Torrent) (ev : TrackerEvent) : Torrent × List Effect :=
  if t.disableTrackers || !t.hasTrackerAnnouncer || t.announceURL = "" then (t, [])
  else
    ({ t with numTrackerAnnouncesSend := t.numTrackerAnnouncesSend + 1,
              canAnnounceTracker := false },
     [.trackerSubmit ev])

/-- Torrent.announceDht: dropped when DHT is disabled or absent; otherwise
starts an announce, resets the timer and blocks further DHT announces. -/
def Torrent.announceDhtF (t : Torrent) : Torrent × List Effect :=
  if t.disableDHT || !t.hasDhtServer then (t, [])
  else
    ({ t with dhtAnnounceActive := true, canAnnounceDht := false,
              numDhtAnnounces := t.numDhtAnnounces + 1 },
     [.dhtAnnounce])

/-- Torrent.tryAnnounceAll. -/
def Torrent.tryAnnounceAll (t : Torrent) : Torrent × List Effect :=
  if !t.wantPeers then (t, [])
  else
    let s1 := if t.canAnnounceTracker then t.sendAnnounceToTrackerF .noneEv else (t, [])
    let s2 := if s1.1.canAnnounceDht then s1.1.announceDhtF else (s1.1, [])
    (s2.1, s1.2 ++ s2.2)

/-- The Go map assignment t.halfOpen[peer.P.String()] = peer: overwrite the
entry with the same address key, or add a new one. -/
def hoInsert (halfOpen : List Peer) (p : Peer) : List Peer :=
  if halfOpen.any (fun q => q.ip = p.ip ∧ q.port = p.port) then
    halfOpen.map (fun q => if q.ip = p.ip ∧ q.port = p.port then p else q)
  else halfOpen ++ [p]

/-- The Go map delete of removeHalfOpen, keyed by the address. -/
def hoDelete (halfOpen : List Peer) (p : Peer) : List Peer :=
  halfOpen.filter (fun q => !(q.ip = p.ip ∧ q.port = p.port))

instance : Inhabited Peer := ⟨⟨[], 0⟩⟩

/-- The dial loop of Torrent.dialConns: while candidate peers remain and the
half-open map is below its cap, pop a random candidate (popPeer draws
rand.Intn(len(peers)); the draws are supplied by the oracle list, reduced
modulo the current length, which never defaults because the loop guard
keeps the list nonempty), skip it when its address is already among the
active connections, otherwise record it half-open and start an outgoing
dial. -/
def dialLoop (conns : List ConnInfo) (maxHO : Nat) :
    List Peer → List Peer → List Nat → List Peer × List Peer × List Effect
  | peers, halfOpen, oracle =>
    if h : 0 < peers.length ∧ halfOpen.length < maxHO then
      let i := oracle.headD 0 % peers.length
      let p := peers.getD i default
      let peers1 := peers.take i ++ peers.drop (i + 1)
      if conns.any (fun ci => ci.peer.ip = p.ip ∧ ci.peer.port = p.port) then
        dialLoop conns maxHO peers1 halfOpen oracle.tail
      else
        match dialLoop conns maxHO peers1 (hoInsert halfOpen p) oracle.tail with
        | (peers2, ho2, effs2) => (peers2, ho2, .dialPeer p :: effs2)
    else (peers, halfOpen, [])
  termination_by peers _ _ => peers.length
  decreasing_by
    all_goals
      have hi : oracle.headD 0 % peers.length < peers.length := Nat.mod_lt _ h.1
      simp only [List.length_append, List.length_take, List.length_drop]
      omega

/-- Torrent.dialConns: gate on wantConns, run the dial loop, then the
deferred tryAnnounceAll on the updated state. -/
def Torrent.dialConns (t : Torrent) (oracle : List Nat) : Torrent × List Effect :=
  if !t.wantConns then (t, [])
  else
    match dialLoop t.conns t.maxHalfOpenConns t.peers t.halfOpen oracle with
    | (peers1, halfOpen1, effs) =>
      let t1 := { t with peers := peers1, halfOpen := halfOpen1 }
      let s2 := t1.tryAnnounceAll
      (s2.1, effs ++ s2.2)

/-- Torrent.addFilteredPeers with the filter of Torrent.gotPeers: drop the
candidates whose IP is on the client blacklist. -/
def Torrent.addFilteredPeersBlacklist (t : Torrent) (ps : List Peer) : Torrent :=
  { t with peers := t.peers ++ ps.filter (fun p => !t.blackList.any (fun ip => ip = p.ip)) }

/-- Torrent.gotPeers: append the filtered candidates, then dial. -/
def Torrent.gotPeers (t : Torrent) (ps : List Peer) (oracle : List Nat) : Torrent × List Effect :=
  (t.addFilteredPeersBlacklist ps).dialConns oracle

/-- Torrent.removeHalfOpen: delete the address, then dial again. -/
def Torrent.removeHalfOpenF (t : Torrent) (p : Peer) (oracle : List Nat) : Torrent × List Effect :=
  { t with halfOpen := hoDelete t.halfOpen p }.dialConns oracle

/-- Torrent.establishedConnection. A rejected session is sent a drop at
once. An admitted session is appended to the active set unconditionally
once wantConns holds: the function performs no duplicate-address check.
Sends follow: have-info when the info is known, the bitfield when pieces
are owned (Go dereferences the pieces pointer here, which panics on a
torrent that has no info yet), the DHT port when both sides support it,
and the deferred choker review runs on return. The Bool reports admission. -/
def Torrent.establishedConnection (t : Torrent) (ci : ConnInfo) :
    Except String (Torrent × List Effect × Bool) :=
  if !t.wantConns then
    match t.closeDhtAnnounceF with
    | (t1, e1) => .ok (t1, .sendDrop ci.cid :: e1, false)
  else
    match t.pieces with
    | none => .error "panic: nil pointer dereference of t.pieces in establishedConnection"
    | some reg =>
      let effs :=
        (if t.haveInfoT then [Effect.sendHaveInfo ci.cid] else []) ++
        (if 0 < reg.ownedLen then [Effect.sendBitfield ci.cid] else []) ++
        (if ci.supportDHT && t.clReservedDHT && t.hasDhtServer then [Effect.sendPort ci.cid] else []) ++
        [Effect.chokerReview]
      .ok ({ t with conns := t.conns ++ [ci] }, effs, true)

/-- Torrent.banPeer selection: fold over the active set with the running
maximum starting at math.MinInt32, keeping the first connection whose
malliciousness strictly exceeds the running maximum. -/
def banSelect (conns : List ConnInfo) : Int × Option ConnInfo :=
  conns.foldl
    (fun acc c => if (c.mall : Int) > acc.1 then ((c.mall : Int), some c) else acc)
    (-2147483648, none)

/-- Torrent.banPeer: nothing to do when no connection was selected;
otherwise blacklist the IP (cl.banIP lives in the client, outside this
file; modelled from the spec as appending to the client blacklist) and
send the session a drop. -/
def Torrent.banPeer (t : Torrent) : Torrent × List Effect :=
  match (banSelect t.conns).2 with
  | none => (t, [])
  | some c =>
    ({ t with blackList := t.blackList ++ [c.peer.ip] },
     [.banIP c.peer.ip, .sendDrop c.cid])

/-- The per-connection walk of Torrent.reviewInterestsOnPieceDownload: a
connection whose bitfield holds the piece loses one numWant and is sent
not-interested when none remain (connInfo.notInterested is outside this
file; modelled from the spec as the not-interested send). -/
def reviewConns (i : Nat) : List ConnInfo → List ConnInfo × List Effect
  | [] => ([], [])
  | c :: cs =>
    let rest := reviewConns i cs
    if c.peerBf.getD i false then
      let c1 := { c with numWant := c.numWant - 1 }
      (c1 :: rest.1,
       (if c1.numWant ≤ 0 then [Effect.sendNotInterested c.cid] else []) ++ rest.2)
    else (c :: rest.1, rest.2)

/-- Torrent.reviewInterestsOnPieceDownload. -/
def Torrent.reviewInterestsOnPieceDownload (t : Torrent) (i : Nat) : Torrent × List Effect :=
  if t.haveAllT then (t, [])
  else
    match reviewConns i t.conns with
    | (conns1, effs) => ({ t with conns := conns1 }, effs)

/-- Torrent.sendHaves. -/
def Torrent.sendHaves (t : Torrent) (i : Nat) : List Effect :=
  t.conns.map (fun c => Effect.sendHave c.cid i)

/-- Torrent.onPieceDownload: record the piece length in the stats (the
Stats type is outside this file; the lengths passed to it are recorded),
review interests, send the haves. Dereferences mi.Info for the length. -/
def Torrent.onPieceDownload (t : Torrent) (i : Nat) : Except String (Torrent × List Effect) :=
  match t.info with
  | none => .error "panic: nil pointer dereference of t.mi.Info in pieceLen"
  | some inf =>
    let t1 := { t with statsPieceLensDownloaded := t.statsPieceLensDownloaded ++ [inf.pieceLenGo i] }
    match t1.reviewInterestsOnPieceDownload i with
    | (t2, e2) => .ok (t2, e2 ++ t2.sendHaves i)

/-- Torrent.pieceHashed: drop the piece from the verification queue, record
the result in the registry, then either the piece-download path or the ban. -/
def Torrent.pieceHashedF (t : Torrent) (i : Nat) (ok : Bool) :
    Except String (Torrent × List Effect) :=
  match t.pieces with
  | none => .error "panic: nil pointer dereference of t.pieces in pieceHashed"
  | some reg =>
    let t1 := { t with queuedForVerification := t.queuedForVerification.erase i,
                       pieces := some (reg.pieceHashed i ok) }
    if ok then t1.onPieceDownload i
    else .ok t1.banPeer

/-- Torrent.downloadedAll: close the downloaded-all signal, then send every
session not-interested. -/
def Torrent.downloadedAllF (t : Torrent) : Torrent × List Effect :=
  ({ t with downloadedDataClosed := true },
   Effect.closeDownloadedDataC :: t.conns.map (fun c => Effect.sendNotInterested c.cid))

/-- The piece-hashed branch of Torrent.mainLoop: process the result, and
when every piece is now verified submit the completed announce and run
downloadedAll. -/
def Torrent.onPieceHashedEvent (t : Torrent) (i : Nat) (ok : Bool) :
    Except String (Torrent × List Effect) :=
  match t.pieceHashedF i ok with
  | .error e => .error e
  | .ok (t1, e1) =>
    match t1.pieces with
    | none => .error "panic: nil pointer dereference of t.pieces in mainLoop"
    | some reg =>
      if reg.haveAll then
        match t1.sendAnnounceToTrackerF .completed with
        | (t2, e2) =>
          match t2.downloadedAllF with
          | (t3, e3) => .ok (t3, e1 ++ e2 ++ e3)
      else .ok (t1, e1)

/-- Torrent.connIndex: position of the connection with the same pointer
identity. -/
def Torrent.connIndex (t : Torrent) (ci : ConnInfo) : Option Nat :=
  t.conns.findIdx? (fun c => c.cid = ci.cid)

/-- Torrent.droppedConn: not found means already dropped; otherwise remove
the connection, keep its peer as a candidate when the info came over the
wire but transfer is not enabled yet, then the deferred dialConns and
choker review run. The Bool reports whether the connection was found. -/
def Torrent.droppedConn (t : Torrent) (ci : ConnInfo) (oracle : List Nat) :
    Torrent × List Effect × Bool :=
  match t.connIndex ci with
  | none => (t, [], false)
  | some i =>
    let t1 := { t with conns := t.conns.take i ++ t.conns.drop (i + 1) }
    let t2 :=
      if t1.infoWasDownloaded && !t1.dataTransferAllowed then
        { t1 with peers := t1.peers ++ [ci.peer] }
      else t1
    match t2.dialConns oracle with
    | (t3, e3) => (t3, e3 ++ [Effect.chokerReview], true)

/-- Torrent.dropAllConns: close the DHT announce, close the drop signal,
wait for every session to acknowledge, forget the active set. -/
def Torrent.dropAllConns (t : Torrent) : Torrent × List Effect :=
  match t.closeDhtAnnounceF with
  | (t1, e1) =>
    ({ t1 with conns := [], dropCClosed := true },
     e1 ++ [Effect.closeDropC] ++ t1.conns.map (fun c => Effect.waitConnDrop c.cid))

/-- Torrent.close: Go panics when the torrent is already closed; otherwise
drop every connection, stop the choker ticker and both announce timers,
release the registries, and the deferred block closes ClosedC and marks the
torrent closed. -/
def Torrent.closeT (t : Torrent) : Except String (Torrent × List Effect) :=
  if t.isClosed then .error "panic: attempt to close torrent but is already closed"
  else
    match t.dropAllConns with
    | (t1, e1) =>
      .ok ({ t1 with pieces := none, infoBytes := none, peers := [],
                     closedCClosed := true, isClosed := true },
           e1 ++ [Effect.stopChokerTicker, Effect.stopTrackerTimer, Effect.stopDhtTimer,
                  Effect.closeClosedC])

/-- Modelled from the spec: the exported Close entry point is outside src
(only the internal close above is); the spec public contract says close is
idempotent and every later mutating call errors rather than panics, and
TestMultipleClose in the repository calls Close twice and expects no
failure, so the wrapper checks the closed flag before invoking the internal
close. -/
def Torrent.CloseEx (t : Torrent) : Except String (Torrent × List Effect) :=
  if t.isClosed then .ok (t, []) else t.closeT

/-- Torrent.downloadMetadata. The infoSize argument stands for the value of
t.infoSizeFreq.max(), the most frequently advertised metadata size (the
freqMap type is outside src; modelled from the spec as the modal advertised
size). Zero and anything above the literal 10000000 are rejected; otherwise
the info buffer and the 16 KiB ownership slots are allocated. -/
def Torrent.downloadMetadata (t : Torrent) (infoSize : Nat) : Torrent × Bool :=
  if infoSize = 0 ∨ 10000000 < infoSize then (t, false)
  else
    let isLastSmaller := infoSize % 16384 ≠ 0
    let numPieces := infoSize / 16384 + (if isLastSmaller then 1 else 0)
    ({ t with infoBytes := some (List.replicate infoSize 0),
              ownedInfoBlocks := List.replicate numPieces false },
     true)

/-- len(t.infoBytes) with the Go convention that a nil slice has length 0. -/
def Torrent.infoBytesLen (t : Torrent) : Nat :=
  match t.infoBytes with
  | none => 0
  | some bs => bs.length

/-- The bytes of metadata piece i of the stored info: the 16 KiB window at
offset i, truncated at the end. readMetadataPiece is meant to expose these
bytes through its buffer argument. -/
def metadataPieceBytes (info : List Nat) (i : Nat) : List Nat :=
  ((info.drop (i * 16384)).take 16384)

/-- Torrent.readMetadataPiece: panics without the info, rejects an
out-of-range index, and otherwise assigns the metadata piece slice to the
local variable b, a rebinding of the parameter that never reaches the
caller; the returned list is the content of the caller buffer after the
call, which the function leaves untouched on every path. -/
def Torrent.readMetadataPiece (t : Torrent) (b : List Nat) (i : Nat) :
    Except String (List Nat) :=
  if !t.haveInfoT then .error "panic: read metadata piece:we dont have info"
  else if t.infoBytesLen ≤ i * 16384 then .error "read metadata piece: out of range"
  else .ok b

/-- One coordinator transition of the mainLoop event dispatch, over the
operations modelled above: a new session handed over newConnC, a hasher
result, a session drop notification, an announce response with new peer
candidates, a completed or failed dial releasing its half-open slot, and
the close request. Operations that can panic step only through their
non-panicking outcomes. -/
inductive Step : Torrent → Torrent → Prop where
  | estConn (t : Torrent) (ci : ConnInfo) (t1 : Torrent) (effs : List Effect) (adm : Bool)
      (h : t.establishedConnection ci = .ok (t1, effs, adm)) : Step t t1
  | pieceHashedEv (t : Torrent) (i : Nat) (ok : Bool) (t1 : Torrent) (effs : List Effect)
      (h : t.onPieceHashedEvent i ok = .ok (t1, effs)) : Step t t1
  | connDropped (t : Torrent) (ci : ConnInfo) (oracle : List Nat) :
      Step t (t.droppedConn ci oracle).1
  | peersArrived (t : Torrent) (ps : List Peer) (oracle : List Nat) :
      Step t (t.gotPeers ps oracle).1
  | halfOpenRemoved (t : Torrent) (p : Peer) (oracle : List Nat) :
      Step t (t.removeHalfOpenF p oracle).1
  | closeStep (t : Torrent) (t1 : Torrent) (effs : List Effect)
      (h : t.closeT = .ok (t1, effs)) : Step t t1

/-- States a torrent can reach from its creation through the modelled
coordinator transitions. -/
def ReachableT (init t : Torrent) : Prop := Relation.ReflTransGen Step init t

/-- Admission flag of an establishedConnection outcome; a panic admits
nothing. -/
def admittedOf (r : Except String (Torrent × List Effect × Bool)) : Bool :=
  match r with
  | .ok (_, _, adm) => adm
  | .error _ => false

/-- Active set of an establishedConnection outcome. -/
def connsOf (r : Except String (Torrent × List Effect × Bool)) : List ConnInfo :=
  match r with
  | .ok (t1, _, _) => t1.conns
  | .error _ => []

/-- Concrete states and inputs the closed theorems below evaluate on. -/
def samplePeer : Peer := ⟨[10, 0, 0, 1], 6881⟩

def sampleConn (cid : Nat) (p : Peer) (m : Nat) : ConnInfo :=
  { cid := cid, peer := p, mall := m, supportDHT := false, peerBf := [], numWant := 0 }

def sampleInfo : InfoDict := ⟨16384, 32768⟩

def t0 : Torrent := newTorrentT 55 false false true true "udp://tracker.example/ann"

def tDup : Torrent :=
  { t0 with info := some sampleInfo, pieces := some ⟨[false, false]⟩,
            uploadEnabled := true, conns := [sampleConn 1 samplePeer 0] }

def tBan : Torrent :=
  { t0 with info := some sampleInfo, pieces := some ⟨[false, false]⟩,
            conns := [sampleConn 1 samplePeer 3, sampleConn 2 ⟨[10, 0, 0, 2], 51413⟩ 7] }

def tMeta : Torrent :=
  { t0 with info := some sampleInfo, infoBytes := some [1, 2, 3] }

def tLast : Torrent := { tBan with pieces := some ⟨[false, true]⟩ }

/-- The struct types of the decoder theorems: two optional fields that
share the bencode key k, the first of int (or list-of-int) type and the
second a string, and a struct with one mandatory field. -/
def fieldA : BField := { fname := [65], benTag := [107], omitEmpty := true }

def fieldB : BField := { fname := [66], benTag := [107], omitEmpty := true }

def twoCandIS : BenType := .tptr (.tstruct [(fieldA, .tint), (fieldB, .tstr)])

def twoCandLS : BenType := .tptr (.tstruct [(fieldA, .tlist .tint), (fieldB, .tstr)])

def oneReq : BenType :=
  .tptr (.tstruct [({ fname := [65], benTag := [], omitEmpty := false }, .tint)])

/-- C9 counterexample: decoding the dictionary d1:k3:abce into the struct
with two optional candidates for key k (an int field first, then a string
field) does not rewind and retry: the failed int attempt consumes six
bytes, the rewind loop calls UnreadByte twice, the second call fails and
readBenDictStruct aborts with that error instead of letting the string
candidate decode the value abc. -/
theorem dictstruct_rewind_counterexample :
    Decode [100, 49, 58, 107, 51, 58, 97, 98, 99, 101] twoCandIS =
      .error (.emsg "bytes.Buffer: UnreadByte: previous operation was not a successful read") ∧
    Decode [100, 49, 58, 107, 51, 58, 97, 98, 99, 101] twoCandIS ≠
      .ok (.vstruct [([65], .vint 0), ([66], .vstr [97, 98, 99])]) := by
  refine ⟨rfl, ?_⟩
  intro hcontra
  rw [(rfl : Decode [100, 49, 58, 107, 51, 58, 97, 98, 99, 101] twoCandIS =
      .error (.emsg "bytes.Buffer: UnreadByte: previous operation was not a successful read"))] at hcontra
  exact Except.noConfusion hcontra

/-- C9 (corrected): candidate fields for a shared key are tried in
declaration order, and the buffer rewind after a failed candidate succeeds
exactly when the attempt consumed at most one byte, because the rewind is a
loop of UnreadByte calls of which only the first can succeed. First
conjunct: a list-typed first candidate fails after consuming one byte, the
rewind restores the position and the string candidate decodes the same
one-byte string value, for every byte c. Second conjunct: an int-typed
first candidate fails after consuming several bytes and decoding aborts
with the UnreadByte error. Third conjunct: a mandatory field absent when
the dictionary ends is an error. -/
theorem dictstruct_rewind_rule :
    (∀ c : Nat, Decode [100, 49, 58, 107, 49, 58, c, 101] twoCandLS =
      .ok (.vstruct [([65], .vlist []), ([66], .vstr [c])])) ∧
    Decode [100, 49, 58, 107, 52, 58, 115, 112, 97, 109, 101] twoCandIS =
      .error (.emsg "bytes.Buffer: UnreadByte: previous operation was not a successful read") ∧
    Decode [100, 101] oneReq =
      .error (.emsg "Some filled of the struct were not filled and they were not to be ommited: ") :=
  ⟨fun _ => rfl, rfl, rfl⟩

/-- C9 witness: the rewind-and-retry conjunct evaluated at the byte 97. -/
theorem dictstruct_rewind_rule_witness :
    Decode [100, 49, 58, 107, 49, 58, 97, 101] twoCandLS =
      .ok (.vstruct [([65], .vlist []), ([66], .vstr [97])]) :=
  dictstruct_rewind_rule.1 97

/-- C10: Decode reports success only when the inner decode consumed the
entire input, since the trailing ReadByte probe returns io.EOF exactly on
an empty buffer; and a non-pointer target is rejected up front. -/
theorem Decode_requires_full_consumption (data : List Nat) (t : BenType) :
    ((∃ v, Decode data t = .ok v) →
      ∃ te, t = .tptr te ∧ (decodeFinalBuf data te).rest = []) ∧
    ((∀ te, t ≠ .tptr te) →
      Decode data t = .error (.emsg "v should have a pointer type")) := by
  constructor
  · rintro ⟨v, hok⟩
    cases t with
    | tint => simp [Decode] at hok
    | tstr => simp [Decode] at hok
    | tlist te => simp [Decode] at hok
    | tstruct fs => simp [Decode] at hok
    | tptr te =>
      refine ⟨te, rfl, ?_⟩
      have hok2 : finishDecode (decodeTop data te) = .ok v := hok
      unfold decodeFinalBuf
      rcases hd : decodeTop data te with ⟨res, b1⟩
      rw [hd] at hok2
      rcases res with e | v1
      · simp [finishDecode] at hok2
      · rcases b1 with ⟨past, rest, lr⟩
        rcases rest with _ | ⟨x, xs⟩
        · rfl
        · simp [finishDecode, Buf.ReadByte] at hok2
  · intro h
    cases t with
    | tint => rfl
    | tstr => rfl
    | tlist te => rfl
    | tstruct fs => rfl
    | tptr te => exact absurd rfl (h te)

/-- C10 witness: decoding i5e into a pointer-to-int target succeeds and the
final buffer is empty; the same data into a non-pointer target errors. -/
theorem Decode_requires_full_consumption_witness :
    (decodeFinalBuf [105, 53, 101] .tint).rest = [] ∧
    Decode [105, 53, 101] .tint = .error (.emsg "v should have a pointer type") := by
  constructor
  · obtain ⟨te, hte, h⟩ :=
      (Decode_requires_full_consumption [105, 53, 101] (.tptr .tint)).1 ⟨.vint 5, rfl⟩
    injection hte with h2
    rw [h2]
    exact h
  · exact (Decode_requires_full_consumption [105, 53, 101] .tint).2 (fun te h => nomatch h)

/-- C6: on a torrent whose total length is an exact multiple of the piece
length (32768 over 16384, two pieces) the code computes the last piece
length as the modulo, which is 0, where the remaining length
totalLength - (NumPieces - 1) * pieceLen is 16384; the claim expects the
positive remaining length. -/
theorem pieceLen_zero_on_exact_multiple :
    InfoDict.pieceLenGo sampleInfo 1 = 0 ∧
    sampleInfo.NumPieces = 2 ∧
    sampleInfo.totalLength - (sampleInfo.NumPieces - 1) * sampleInfo.pieceLen = 16384 ∧
    (0 : Nat) ≠ 16384 := by decide

/-- C7 counterexample: the modal advertised size 10100000 is neither 0 nor
above 10 MiB (10485760), yet downloadMetadata rejects it, because the code
threshold is the decimal literal 10000000. -/
theorem downloadMetadata_counterexample :
    (t0.downloadMetadata 10100000).2 = false ∧
    (10100000 : Nat) ≠ 0 ∧
    (10100000 : Nat) ≤ 10 * 1024 * 1024 := by decide

/-- C7 (corrected): downloadMetadata returns false exactly when the modal
advertised size is 0 or exceeds 10000000 bytes (not 10 MiB), and otherwise
allocates an info buffer of that size and one ownership slot per 16 KiB
piece, rounded up. -/
theorem downloadMetadata_threshold (t : Torrent) (s : Nat) :
    ((t.downloadMetadata s).2 = false ↔ (s = 0 ∨ 10000000 < s)) ∧
    ((t.downloadMetadata s).2 = true →
      (t.downloadMetadata s).1.infoBytes = some (List.replicate s 0) ∧
      (t.downloadMetadata s).1.ownedInfoBlocks.length = (s + 16383) / 16384) := by
  constructor
  · unfold Torrent.downloadMetadata
    by_cases hg : s = 0 ∨ 10000000 < s
    · simp [hg]
    · simp [hg]
  · intro htrue
    by_cases hg : s = 0 ∨ 10000000 < s
    · unfold Torrent.downloadMetadata at htrue
      simp [hg] at htrue
    · constructor
      · unfold Torrent.downloadMetadata
        simp [hg]
      · unfold Torrent.downloadMetadata
        simp only [hg, if_false]
        simp only [List.length_replicate]
        by_cases hm : s % 16384 = 0
        · simp only [hm, ne_eq, not_true_eq_false, if_false]
          omega
        · simp only [hm, ne_eq, not_false_eq_true, if_true]
          omega

/-- C7 witness: the amended rule evaluated at the accepted size 5. -/
theorem downloadMetadata_threshold_witness :
    (t0.downloadMetadata 5).1.infoBytes = some (List.replicate 5 0) ∧
    (t0.downloadMetadata 5).1.ownedInfoBlocks.length = (5 + 16383) / 16384 :=
  (downloadMetadata_threshold t0 5).2 (by decide)

/-- C8: a successful readMetadataPiece leaves the caller buffer unchanged
instead of exposing the metadata piece bytes in it: on a torrent whose
stored info bytes are 1 2 3, reading piece 0 into the buffer 9 9 9 returns
success while the buffer still reads 9 9 9, not the piece bytes. -/
theorem readMetadataPiece_ignores_buffer :
    tMeta.readMetadataPiece [9, 9, 9] 0 = .ok [9, 9, 9] ∧
    metadataPieceBytes [1, 2, 3] 0 = [1, 2, 3] ∧
    ([9, 9, 9] : List Nat) ≠ metadataPieceBytes [1, 2, 3] 0 :=
  ⟨rfl, by decide, by decide⟩

theorem hoInsert_length_le (ho : List Peer) (p : Peer) (m : Nat) (h : ho.length < m) :
    (hoInsert ho p).length ≤ m := by
  unfold hoInsert
  split
  · simpa using Nat.le_of_lt h
  · simp only [List.length_append, List.length_cons, List.length_nil]
    omega

theorem dialLoop_halfOpen_le (conns : List ConnInfo) (maxHO : Nat) :
    ∀ (n : Nat) (peers ho : List Peer) (oracle : List Nat), peers.length ≤ n →
      ho.length ≤ maxHO → ((dialLoop conns maxHO peers ho oracle).2.1).length ≤ maxHO := by
  intro n
  induction n with
  | zero =>
    intro peers ho oracle hlen hho
    have hnil : peers = [] := List.length_eq_zero.mp (Nat.le_zero.mp hlen)
    subst hnil
    rw [dialLoop]
    simp [hho]
  | succ n ih =>
    intro peers ho oracle hlen hho
    rw [dialLoop]
    split
    · rename_i hcond
      have hlen1 : (peers.take (oracle.headD 0 % peers.length) ++
          peers.drop (oracle.headD 0 % peers.length + 1)).length ≤ n := by
        have hi : oracle.headD 0 % peers.length < peers.length := Nat.mod_lt _ hcond.1
        simp only [List.length_append, List.length_take, List.length_drop]
        omega
      dsimp only
      split
      · exact ih _ _ oracle.tail hlen1 hho
      · rcases hrec : dialLoop conns maxHO
            (peers.take (oracle.headD 0 % peers.length) ++
             peers.drop (oracle.headD 0 % peers.length + 1))
            (hoInsert ho (peers.getD (oracle.headD 0 % peers.length) default)) oracle.tail
          with ⟨p2, h2, e2⟩
        have := ih _ _ oracle.tail hlen1
            (hoInsert_length_le ho (peers.getD (oracle.headD 0 % peers.length) default) maxHO hcond.2)
        rw [hrec] at this
        simpa using this
    · simpa using hho

theorem dialLoop_dialPeer_not_active (conns : List ConnInfo) (maxHO : Nat) :
    ∀ (n : Nat) (peers ho : List Peer) (oracle : List Nat) (q : Peer), peers.length ≤ n →
      Effect.dialPeer q ∈ (dialLoop conns maxHO peers ho oracle).2.2 →
      conns.any (fun ci => ci.peer.ip = q.ip ∧ ci.peer.port = q.port) = false := by
  intro n
  induction n with
  | zero =>
    intro peers ho oracle q hlen hmem
    have hnil : peers = [] := List.length_eq_zero.mp (Nat.le_zero.mp hlen)
    subst hnil
    rw [dialLoop] at hmem
    simp at hmem
  | succ n ih =>
    intro peers ho oracle q hlen hmem
    rw [dialLoop] at hmem
    split at hmem
    · rename_i hcond
      have hlen1 : (peers.take (oracle.headD 0 % peers.length) ++
          peers.drop (oracle.headD 0 % peers.length + 1)).length ≤ n := by
        have hi : oracle.headD 0 % peers.length < peers.length := Nat.mod_lt _ hcond.1
        simp only [List.length_append, List.length_take, List.length_drop]
        omega
      dsimp only at hmem
      split at hmem
      · exact ih _ _ oracle.tail q hlen1 hmem
      · rename_i hnew
        rcases hrec : dialLoop conns maxHO
            (peers.take (oracle.headD 0 % peers.length) ++
             peers.drop (oracle.headD 0 % peers.length + 1))
            (hoInsert ho (peers.getD (oracle.headD 0 % peers.length) default)) oracle.tail
          with ⟨p2, h2, e2⟩
        rw [hrec] at hmem
        simp only [List.mem_cons] at hmem
        rcases hmem with heq | hmem2
        · injection heq with hq
          subst hq
          simpa using hnew
        · exact ih _ _ oracle.tail q hlen1 (by rw [hrec]; exact hmem2)
    · simp at hmem

theorem sendAnn_no_dialPeer (t : Torrent) (ev : TrackerEvent) (q : Peer) :
    Effect.dialPeer q ∉ (t.sendAnnounceToTrackerF ev).2 := by
  unfold Torrent.sendAnnounceToTrackerF
  split <;> simp

theorem announceDht_no_dialPeer (t : Torrent) (q : Peer) :
    Effect.dialPeer q ∉ (t.announceDhtF).2 := by
  unfold Torrent.announceDhtF
  split <;> simp

theorem tryAnnounceAll_no_dialPeer (t : Torrent) (q : Peer) :
    Effect.dialPeer q ∉ (t.tryAnnounceAll).2 := by
  intro hmem
  unfold Torrent.tryAnnounceAll at hmem
  split at hmem
  · simp at hmem
  · dsimp only at hmem
    rcases List.mem_append.mp hmem with h1 | h1
    · split at h1
      · exact sendAnn_no_dialPeer _ _ _ h1
      · simp at h1
    · rcases h1s : (if t.canAnnounceTracker = true then t.sendAnnounceToTrackerF .noneEv
          else (t, [])) with ⟨t1, e1⟩
      rw [h1s] at h1
      dsimp only at h1
      split at h1
      · exact announceDht_no_dialPeer _ _ h1
      · simp at h1

theorem tryAnnounceAll_preserves (t : Torrent) :
    (t.tryAnnounceAll).1.conns = t.conns ∧ (t.tryAnnounceAll).1.halfOpen = t.halfOpen ∧
    (t.tryAnnounceAll).1.maxEstablishedConnections = t.maxEstablishedConnections ∧
    (t.tryAnnounceAll).1.maxHalfOpenConns = t.maxHalfOpenConns := by
  unfold Torrent.tryAnnounceAll
  split
  · exact ⟨rfl, rfl, rfl, rfl⟩
  · dsimp only
    unfold Torrent.sendAnnounceToTrackerF Torrent.announceDhtF
    repeat' split
    all_goals exact ⟨rfl, rfl, rfl, rfl⟩

theorem dialConns_spec (t : Torrent) (o : List Nat) :
    (t.dialConns o).1.conns = t.conns ∧
    (t.dialConns o).1.maxEstablishedConnections = t.maxEstablishedConnections ∧
    (t.dialConns o).1.maxHalfOpenConns = t.maxHalfOpenConns ∧
    (t.halfOpen.length ≤ t.maxHalfOpenConns →
      (t.dialConns o).1.halfOpen.length ≤ t.maxHalfOpenConns) := by
  unfold Torrent.dialConns
  split
  · exact ⟨rfl, rfl, rfl, fun h => h⟩
  · rcases hdl : dialLoop t.conns t.maxHalfOpenConns t.peers t.halfOpen o with ⟨p1, h1, e1⟩
    dsimp only
    obtain ⟨hc, hh, hm1, hm2⟩ := tryAnnounceAll_preserves { t with peers := p1, halfOpen := h1 }
    refine ⟨hc, hm1, hm2, fun hb => ?_⟩
    have hbound := dialLoop_halfOpen_le t.conns t.maxHalfOpenConns t.peers.length t.peers
      t.halfOpen o (Nat.le_refl _) hb
    rw [hdl] at hbound
    rw [hh]
    exact hbound

theorem dialConns_no_new_active_dial (t : Torrent) (o : List Nat) (q : Peer)
    (hmem : Effect.dialPeer q ∈ (t.dialConns o).2) :
    t.peerInActiveConns q = false := by
  unfold Torrent.dialConns at hmem
  split at hmem
  · simp at hmem
  · rcases hdl : dialLoop t.conns t.maxHalfOpenConns t.peers t.halfOpen o with ⟨p1, h1, e1⟩
    rw [hdl] at hmem
    dsimp only at hmem
    rcases List.mem_append.mp hmem with h2 | h2
    · have := dialLoop_dialPeer_not_active t.conns t.maxHalfOpenConns t.peers.length
        t.peers t.halfOpen o q (Nat.le_refl _) (by rw [hdl]; exact h2)
      exact this
    · exact absurd h2 (tryAnnounceAll_no_dialPeer _ q)

/-- C1 counterexample: on a torrent that already holds an active session
with the address 10.0.0.1:6881 and wants connections, handing
establishedConnection a second session with the same address admits it,
so the active set holds two sessions with equal peer addresses. -/
theorem establishedConnection_duplicate_admitted :
    admittedOf (tDup.establishedConnection (sampleConn 2 samplePeer 0)) = true ∧
    (connsOf (tDup.establishedConnection (sampleConn 2 samplePeer 0))).countP
      (fun c => c.peer == samplePeer) = 2 := by decide

/-- C1 (corrected): establishedConnection admits a session exactly when the
active set is below the cap and data transfer is enabled or the info is
not yet known; no duplicate-address check is part of admission. The
duplicate check of peerInActiveConns guards only the dialing side: a dial
is started only for peers whose address is not among the active
connections. -/
theorem establishedConnection_admission_rule (t : Torrent) (ci : ConnInfo) (reg : PiecesReg)
    (hreg : t.pieces = some reg) :
    (admittedOf (t.establishedConnection ci) = true ↔
      (t.conns.length < t.maxEstablishedConnections ∧ t.dataTransferAllowed = true)) ∧
    (∀ (oracle : List Nat) (q : Peer),
      Effect.dialPeer q ∈ (t.dialConns oracle).2 → t.peerInActiveConns q = false) := by
  constructor
  · by_cases hw : t.wantConns = true
    · have hlt : t.conns.length < t.maxEstablishedConnections ∧ t.dataTransferAllowed = true := by
        have hw2 := hw
        unfold Torrent.wantConns at hw2
        simp only [Bool.and_eq_true, decide_eq_true_eq] at hw2
        exact hw2
      unfold Torrent.establishedConnection
      rw [hw, hreg]
      simp [admittedOf, hlt]
    · have hw2 : t.wantConns = false := by
        cases hb : t.wantConns
        · rfl
        · exact absurd hb hw
      have hnot : ¬(t.conns.length < t.maxEstablishedConnections ∧ t.dataTransferAllowed = true) := by
        intro hcon
        apply hw
        unfold Torrent.wantConns
        simp [hcon.1, hcon.2]
      unfold Torrent.establishedConnection
      rw [hw2]
      rcases hcd : t.closeDhtAnnounceF with ⟨t1, e1⟩
      simp [admittedOf, hnot]
  · intro oracle q hmem
    exact dialConns_no_new_active_dial t oracle q hmem

/-- C1 witness: the admission rule applied to a concrete one-connection
torrent and a fresh address. -/
theorem establishedConnection_admission_rule_witness :
    admittedOf (tDup.establishedConnection (sampleConn 3 ⟨[10, 0, 0, 9], 7000⟩ 0)) = true :=
  (establishedConnection_admission_rule tDup (sampleConn 3 ⟨[10, 0, 0, 9], 7000⟩ 0)
    ⟨[false, false]⟩ rfl).1.mpr (by decide)

/-- C2: close is idempotent at the exported level. A first Close on a
non-closed torrent succeeds, marks the torrent closed and closes ClosedC;
a second Close performs no work, returns the same state with no effects
and no panic. The exported wrapper is modelled from the spec because only
the internal close is under src, and the internal close panics when
re-invoked, so the guard of the wrapper carries the idempotence. -/
theorem close_idempotent (t : Torrent) (h : t.isClosed = false) :
    ∃ t1 e1, t.CloseEx = .ok (t1, e1) ∧ t1.isClosed = true ∧ t1.closedCClosed = true ∧
      t1.CloseEx = .ok (t1, []) := by
  rcases hd : t.dropAllConns with ⟨td, ed⟩
  have hclose : t.CloseEx =
      .ok ({ td with pieces := none, infoBytes := none, peers := [],
                     closedCClosed := true, isClosed := true },
           ed ++ [Effect.stopChokerTicker, Effect.stopTrackerTimer, Effect.stopDhtTimer,
                  Effect.closeClosedC]) := by
    unfold Torrent.CloseEx Torrent.closeT
    rw [h, hd]
    simp
  refine ⟨_, _, hclose, rfl, rfl, ?_⟩
  unfold Torrent.CloseEx
  simp

/-- C2 witness: the idempotence applied to the fresh sample torrent. -/
theorem close_idempotent_witness :
    t0.isClosed = false ∧
    ∃ t1 e1, t0.CloseEx = .ok (t1, e1) ∧ t1.isClosed = true ∧ t1.closedCClosed = true ∧
      t1.CloseEx = .ok (t1, []) :=
  ⟨rfl, close_idempotent t0 rfl⟩

theorem banFold_spec (l : List ConnInfo) : ∀ (acc : Int × Option ConnInfo),
    (∀ c ∈ l, (c.mall : Int) ≤
      (l.foldl (fun a c => if (c.mall : Int) > a.1 then ((c.mall : Int), some c) else a) acc).1) ∧
    acc.1 ≤ (l.foldl (fun a c => if (c.mall : Int) > a.1 then ((c.mall : Int), some c) else a) acc).1 ∧
    ((l.foldl (fun a c => if (c.mall : Int) > a.1 then ((c.mall : Int), some c) else a) acc).2 = acc.2 ∧
     (l.foldl (fun a c => if (c.mall : Int) > a.1 then ((c.mall : Int), some c) else a) acc).1 = acc.1 ∨
     ∃ c, c ∈ l ∧
       (l.foldl (fun a c => if (c.mall : Int) > a.1 then ((c.mall : Int), some c) else a) acc).2 = some c ∧
       (l.foldl (fun a c => if (c.mall : Int) > a.1 then ((c.mall : Int), some c) else a) acc).1 = (c.mall : Int)) := by
  induction l with
  | nil =>
    intro acc
    exact ⟨by simp, le_refl _, Or.inl ⟨rfl, rfl⟩⟩
  | cons c cs ih =>
    intro acc
    simp only [List.foldl_cons]
    by_cases hgt : (c.mall : Int) > acc.1
    · rw [if_pos hgt]
      obtain ⟨h1, h2, h3⟩ := ih ((c.mall : Int), some c)
      refine ⟨?_, le_trans (le_of_lt hgt) h2, ?_⟩
      · intro c2 hc2
        rcases List.mem_cons.mp hc2 with rfl | hmem
        · exact h2
        · exact h1 c2 hmem
      · rcases h3 with ⟨ha, hb⟩ | ⟨c2, hc2, ha, hb⟩
        · exact Or.inr ⟨c, List.mem_cons_self c cs, ha, hb⟩
        · exact Or.inr ⟨c2, List.mem_cons_of_mem c hc2, ha, hb⟩
    · rw [if_neg hgt]
      obtain ⟨h1, h2, h3⟩ := ih acc
      refine ⟨?_, h2, ?_⟩
      · intro c2 hc2
        rcases List.mem_cons.mp hc2 with rfl | hmem
        · exact le_trans (Int.not_lt.mp hgt) h2
        · exact h1 c2 hmem
      · rcases h3 with ⟨ha, hb⟩ | ⟨c2, hc2, ha, hb⟩
        · exact Or.inl ⟨ha, hb⟩
        · exact Or.inr ⟨c2, List.mem_cons_of_mem c hc2, ha, hb⟩

theorem banSelect_picks_max (conns : List ConnInfo) (hne : conns ≠ []) :
    ∃ c, (banSelect conns).2 = some c ∧ c ∈ conns ∧ ∀ c2 ∈ conns, c2.mall ≤ c.mall := by
  unfold banSelect
  obtain ⟨h1, h2, h3⟩ := banFold_spec conns (-2147483648, none)
  rcases h3 with ⟨ha, hb⟩ | ⟨c, hc, ha, hb⟩
  · rcases hcons : conns with _ | ⟨c0, cs⟩
    · exact absurd hcons hne
    · exfalso
      have hm := h1 c0 (by rw [hcons]; exact List.mem_cons_self c0 cs)
      rw [hb] at hm
      have h0 : (0 : Int) ≤ (c0.mall : Int) := Int.ofNat_nonneg _
      omega
  · refine ⟨c, ha, hc, fun c2 hc2 => ?_⟩
    have hm := h1 c2 hc2
    rw [hb] at hm
    exact_mod_cast hm

/-- C4: processing a failed piece hash invokes banPeer: with no active
sessions nothing happens beyond the registry update, and otherwise exactly
one session is banned, one whose malliciousness score is greatest among
all active sessions, by blacklisting its IP and sending it a drop
command. -/
theorem pieceHashed_failure_bans_max (t : Torrent) (reg : PiecesReg) (i : Nat)
    (hreg : t.pieces = some reg) :
    (t.conns = [] → t.pieceHashedF i false =
      .ok ({ t with queuedForVerification := t.queuedForVerification.erase i,
                    pieces := some reg }, [])) ∧
    (t.conns ≠ [] → ∃ c, c ∈ t.conns ∧ (∀ c2 ∈ t.conns, c2.mall ≤ c.mall) ∧
      t.pieceHashedF i false =
        .ok ({ t with queuedForVerification := t.queuedForVerification.erase i,
                      pieces := some reg, blackList := t.blackList ++ [c.peer.ip] },
             [Effect.banIP c.peer.ip, Effect.sendDrop c.cid])) := by
  constructor
  · intro hemp
    unfold Torrent.pieceHashedF
    rw [hreg]
    dsimp only
    unfold PiecesReg.pieceHashed Torrent.banPeer
    simp only [if_neg Bool.false_ne_true]
    rw [hemp]
    rfl
  · intro hne
    obtain ⟨c, hsel, hmem, hmax⟩ := banSelect_picks_max t.conns hne
    refine ⟨c, hmem, hmax, ?_⟩
    unfold Torrent.pieceHashedF
    rw [hreg]
    dsimp only
    unfold PiecesReg.pieceHashed Torrent.banPeer
    simp only [if_neg Bool.false_ne_true]
    rw [hsel]

/-- C4 witness: on a torrent with two active sessions of scores 3 and 7 the
failed hash bans the score-7 session. -/
theorem pieceHashed_failure_bans_max_witness :
    ∃ c, c ∈ tBan.conns ∧ (∀ c2 ∈ tBan.conns, c2.mall ≤ c.mall) ∧
      tBan.pieceHashedF 0 false =
        .ok ({ tBan with queuedForVerification := tBan.queuedForVerification.erase 0,
                         pieces := some ⟨[false, false]⟩,
                         blackList := tBan.blackList ++ [([10, 0, 0, 2] : List Nat)] },
             [Effect.banIP [10, 0, 0, 2], Effect.sendDrop 2]) := by
  obtain ⟨c, hmem, hmax, heq⟩ :=
    (pieceHashed_failure_bans_max tBan ⟨[false, false]⟩ 0 rfl).2 (by decide)
  have hc : c = sampleConn 2 ⟨[10, 0, 0, 2], 51413⟩ 7 := by
    rcases List.mem_cons.mp hmem with rfl | hmem2
    · exfalso
      have := hmax (sampleConn 2 ⟨[10, 0, 0, 2], 51413⟩ 7) (by decide)
      simp [sampleConn] at this
    · simpa using hmem2
  subst hc
  exact ⟨_, hmem, hmax, heq⟩

theorem all_set_true (l : List Bool) (i : Nat) (hi : i < l.length)
    (h : ∀ j (hj : j < l.length), j ≠ i → l[j] = true) :
    (l.set i true).all (fun x => x) = true := by
  induction l generalizing i with
  | nil => simp at hi
  | cons a as ih =>
    cases i with
    | zero =>
      simp only [List.set_cons_zero, List.all_cons, Bool.and_eq_true]
      refine ⟨by trivial, ?_⟩
      apply List.all_eq_true.mpr
      intro x hx
      obtain ⟨j, hj, hxe⟩ := List.mem_iff_getElem.mp hx
      rw [← hxe]
      exact h (j + 1) (by simpa using Nat.succ_lt_succ hj) (Nat.succ_ne_zero j)
    | succ n =>
      simp only [List.set_cons_succ, List.all_cons, Bool.and_eq_true]
      refine ⟨h 0 (by simp) (by simp), ?_⟩
      apply ih n (by simpa using Nat.lt_of_succ_lt_succ hi)
      intro j hj hne
      have hj2 := h (j + 1) (by simpa using Nat.succ_lt_succ hj) (by simpa using hne)
      simpa using hj2

theorem reviewConns_cids (i : Nat) (l : List ConnInfo) :
    (reviewConns i l).1.map (fun c => c.cid) = l.map (fun c => c.cid) := by
  induction l with
  | nil => rfl
  | cons c cs ih =>
    unfold reviewConns
    dsimp only
    split
    · simpa using ih
    · simpa using ih

/-- On any successful piece-hashed event, a have for that piece is sent to
every active session. -/
theorem have_broadcast_on_success (u : Torrent) (ureg : PiecesReg) (uinf : InfoDict)
    (j : Nat) (u2 : Torrent) (effs : List Effect)
    (hup : u.pieces = some ureg) (huinf : u.info = some uinf)
    (hev : u.onPieceHashedEvent j true = .ok (u2, effs)) :
    ∀ c ∈ u.conns, Effect.sendHave c.cid j ∈ effs := by
  intro c hcmem
  unfold Torrent.onPieceHashedEvent at hev
  rcases hph : u.pieceHashedF j true with e | ⟨tm, em⟩
  · rw [hph] at hev
    simp at hev
  · rw [hph] at hev
    dsimp only at hev
    have hem : Effect.sendHave c.cid j ∈ em := by
      unfold Torrent.pieceHashedF at hph
      rw [hup] at hph
      dsimp only at hph
      rw [if_pos rfl] at hph
      unfold Torrent.onPieceDownload at hph
      dsimp only at hph
      rw [huinf] at hph
      dsimp only at hph
      unfold Torrent.reviewInterestsOnPieceDownload at hph
      split at hph
      · unfold Torrent.sendHaves at hph
        dsimp only at hph
        simp only [Except.ok.injEq, Prod.mk.injEq] at hph
        rw [← hph.2]
        simp only [List.nil_append]
        exact List.mem_map_of_mem (fun c => Effect.sendHave c.cid j) hcmem
      · rcases hrv : reviewConns j u.conns with ⟨cs1, es1⟩
        rw [hrv] at hph
        dsimp only at hph
        unfold Torrent.sendHaves at hph
        dsimp only at hph
        simp only [Except.ok.injEq, Prod.mk.injEq] at hph
        rw [← hph.2]
        apply List.mem_append_right
        have hcid : c.cid ∈ cs1.map (fun c => c.cid) := by
          have hcs := reviewConns_cids j u.conns
          rw [hrv] at hcs
          dsimp only at hcs
          rw [hcs]
          exact List.mem_map_of_mem (fun c => c.cid) hcmem
        obtain ⟨c2, hc2mem, hc2⟩ := List.mem_map.mp hcid
        have hmm : Effect.sendHave c2.cid j ∈ cs1.map (fun c => Effect.sendHave c.cid j) :=
          List.mem_map_of_mem (fun c => Effect.sendHave c.cid j) hc2mem
        rw [hc2] at hmm
        exact hmm
    rcases hreg2 : tm.pieces with _ | reg2
    · rw [hreg2] at hev
      simp at hev
    · rw [hreg2] at hev
      dsimp only at hev
      split at hev
      · rcases hsa : tm.sendAnnounceToTrackerF .completed with ⟨t3, e3⟩
        rw [hsa] at hev
        dsimp only at hev
        simp only [Except.ok.injEq, Prod.mk.injEq] at hev
        rw [← hev.2]
        exact List.mem_append_left _ (List.mem_append_left _ hem)
      · simp only [Except.ok.injEq, Prod.mk.injEq] at hev
        rw [← hev.2]
        exact hem

/-- C5: when a successful piece-hashed result verifies the last unverified
piece, the coordinator broadcasts have(i) to every session, submits the
completed announce to the tracker, closes the downloaded-all signal and
sends every session not-interested, in that order; and on every successful
piece, final or not, a have for that piece goes to every session. -/
theorem completed_announce_on_final_piece (t : Torrent) (reg : PiecesReg) (inf : InfoDict)
    (i : Nat) (hreg : t.pieces = some reg) (hinf : t.info = some inf)
    (hi : i < reg.verified.length)
    (hothers : ∀ j (hj : j < reg.verified.length), j ≠ i → reg.verified[j] = true)
    (htr : t.disableTrackers = false) (hann : t.hasTrackerAnnouncer = true)
    (hurl : ¬t.announceURL = "") :
    t.onPieceHashedEvent i true =
      .ok ({ t with queuedForVerification := t.queuedForVerification.erase i,
                    pieces := some ⟨reg.verified.set i true⟩,
                    statsPieceLensDownloaded :=
                      t.statsPieceLensDownloaded ++ [inf.pieceLenGo i],
                    numTrackerAnnouncesSend := t.numTrackerAnnouncesSend + 1,
                    canAnnounceTracker := false,
                    downloadedDataClosed := true },
           t.conns.map (fun c => Effect.sendHave c.cid i) ++
           [Effect.trackerSubmit .completed] ++
           (Effect.closeDownloadedDataC ::
            t.conns.map (fun c => Effect.sendNotInterested c.cid))) ∧
    (∀ (u : Torrent) (ureg : PiecesReg) (uinf : InfoDict) (j : Nat) (u2 : Torrent)
       (effs : List Effect), u.pieces = some ureg → u.info = some uinf →
       u.onPieceHashedEvent j true = .ok (u2, effs) →
       ∀ c ∈ u.conns, Effect.sendHave c.cid j ∈ effs) := by
  refine ⟨?_, fun u ureg uinf j u2 effs hup huinf hev =>
    have_broadcast_on_success u ureg uinf j u2 effs hup huinf hev⟩
  have hhave : PiecesReg.haveAll { verified := reg.verified.set i true } = true := by
    unfold PiecesReg.haveAll
    exact all_set_true reg.verified i hi hothers
  unfold Torrent.onPieceHashedEvent Torrent.pieceHashedF Torrent.onPieceDownload
      Torrent.reviewInterestsOnPieceDownload Torrent.haveAllT Torrent.haveInfoT
      Torrent.sendHaves Torrent.sendAnnounceToTrackerF Torrent.downloadedAllF
  rw [hreg]
  dsimp only
  simp [hinf, hhave, htr, hann, hurl, List.append_assoc, PiecesReg.pieceHashed]


/-- C5 witness: the final-piece behaviour on a concrete two-piece torrent
with two sessions whose piece 1 is already verified. -/
theorem completed_announce_on_final_piece_witness :
    tLast.onPieceHashedEvent 0 true =
      .ok ({ tLast with queuedForVerification := tLast.queuedForVerification.erase 0,
                        pieces := some ⟨[false, true].set 0 true⟩,
                        statsPieceLensDownloaded :=
                          tLast.statsPieceLensDownloaded ++ [sampleInfo.pieceLenGo 0],
                        numTrackerAnnouncesSend := tLast.numTrackerAnnouncesSend + 1,
                        canAnnounceTracker := false,
                        downloadedDataClosed := true },
           tLast.conns.map (fun c => Effect.sendHave c.cid 0) ++
           [Effect.trackerSubmit .completed] ++
           (Effect.closeDownloadedDataC ::
            tLast.conns.map (fun c => Effect.sendNotInterested c.cid))) :=
  (completed_announce_on_final_piece tLast ⟨[false, true]⟩ sampleInfo 0 rfl rfl (by decide)
    (by decide) rfl rfl (by decide)).1

theorem closeDht_core (t : Torrent) :
    (t.closeDhtAnnounceF).1.conns = t.conns ∧ (t.closeDhtAnnounceF).1.halfOpen = t.halfOpen ∧
    (t.closeDhtAnnounceF).1.maxEstablishedConnections = t.maxEstablishedConnections ∧
    (t.closeDhtAnnounceF).1.maxHalfOpenConns = t.maxHalfOpenConns := by
  unfold Torrent.closeDhtAnnounceF
  split
  · exact ⟨rfl, rfl, rfl, rfl⟩
  · exact ⟨rfl, rfl, rfl, rfl⟩

theorem sendAnn_core (t : Torrent) (ev : TrackerEvent) :
    (t.sendAnnounceToTrackerF ev).1.conns = t.conns ∧
    (t.sendAnnounceToTrackerF ev).1.halfOpen = t.halfOpen ∧
    (t.sendAnnounceToTrackerF ev).1.maxEstablishedConnections = t.maxEstablishedConnections ∧
    (t.sendAnnounceToTrackerF ev).1.maxHalfOpenConns = t.maxHalfOpenConns := by
  unfold Torrent.sendAnnounceToTrackerF
  split
  · exact ⟨rfl, rfl, rfl, rfl⟩
  · exact ⟨rfl, rfl, rfl, rfl⟩

theorem banPeer_core (t : Torrent) :
    (t.banPeer).1.conns = t.conns ∧ (t.banPeer).1.halfOpen = t.halfOpen ∧
    (t.banPeer).1.maxEstablishedConnections = t.maxEstablishedConnections ∧
    (t.banPeer).1.maxHalfOpenConns = t.maxHalfOpenConns := by
  unfold Torrent.banPeer
  rcases hsel : (banSelect t.conns).2 with _ | c
  · exact ⟨rfl, rfl, rfl, rfl⟩
  · exact ⟨rfl, rfl, rfl, rfl⟩

theorem reviewConns_length (i : Nat) (l : List ConnInfo) :
    (reviewConns i l).1.length = l.length := by
  induction l with
  | nil => rfl
  | cons c cs ih =>
    unfold reviewConns
    dsimp only
    split
    · simpa using ih
    · simpa using ih

theorem onPieceDownload_core (t : Torrent) (i : Nat) (t1 : Torrent) (effs : List Effect)
    (h : t.onPieceDownload i = .ok (t1, effs)) :
    t1.conns.length = t.conns.length ∧ t1.halfOpen = t.halfOpen ∧
    t1.maxEstablishedConnections = t.maxEstablishedConnections ∧
    t1.maxHalfOpenConns = t.maxHalfOpenConns := by
  unfold Torrent.onPieceDownload at h
  rcases hinf : t.info with _ | inf
  · rw [hinf] at h
    simp at h
  · rw [hinf] at h
    dsimp only at h
    unfold Torrent.reviewInterestsOnPieceDownload at h
    split at h
    · simp only [Except.ok.injEq, Prod.mk.injEq] at h
      rw [← h.1]
      exact ⟨rfl, rfl, rfl, rfl⟩
    · rcases hrv : reviewConns i t.conns with ⟨cs1, es1⟩
      rw [hrv] at h
      dsimp only at h
      simp only [Except.ok.injEq, Prod.mk.injEq] at h
      rw [← h.1]
      refine ⟨?_, rfl, rfl, rfl⟩
      have := reviewConns_length i t.conns
      rw [hrv] at this
      exact this

theorem pieceHashedF_core (t : Torrent) (i : Nat) (ok : Bool) (t1 : Torrent) (effs : List Effect)
    (h : t.pieceHashedF i ok = .ok (t1, effs)) :
    t1.conns.length = t.conns.length ∧ t1.halfOpen = t.halfOpen ∧
    t1.maxEstablishedConnections = t.maxEstablishedConnections ∧
    t1.maxHalfOpenConns = t.maxHalfOpenConns := by
  unfold Torrent.pieceHashedF at h
  rcases hreg : t.pieces with _ | reg
  · rw [hreg] at h
    simp at h
  · rw [hreg] at h
    dsimp only at h
    rcases ok with _ | _
    · simp only [Bool.false_eq_true, if_false, Except.ok.injEq] at h
      generalize hmid : ({ t with queuedForVerification := t.queuedForVerification.erase i, pieces := some (reg.pieceHashed i false) } : Torrent) = tmid at h
      obtain ⟨hmid1, hmid2, hmid3, hmid4⟩ := banPeer_core tmid
      rcases hbp : tmid.banPeer with ⟨tb, eb⟩
      rw [hbp] at h hmid1 hmid2 hmid3 hmid4
      have ht1 : tb = t1 := congrArg Prod.fst h
      rw [← hmid] at hmid1 hmid2 hmid3 hmid4
      dsimp only at hmid1 hmid2 hmid3 hmid4
      exact ⟨by rw [← ht1, hmid1], by rw [← ht1, hmid2], by rw [← ht1, hmid3],
             by rw [← ht1, hmid4]⟩
    · rw [if_pos rfl] at h
      exact onPieceDownload_core { t with queuedForVerification := t.queuedForVerification.erase i, pieces := some (reg.pieceHashed i true) } i t1 effs h
  
theorem downloadedAll_core (t : Torrent) :
    (t.downloadedAllF).1.conns = t.conns ∧ (t.downloadedAllF).1.halfOpen = t.halfOpen ∧
    (t.downloadedAllF).1.maxEstablishedConnections = t.maxEstablishedConnections ∧
    (t.downloadedAllF).1.maxHalfOpenConns = t.maxHalfOpenConns :=
  ⟨rfl, rfl, rfl, rfl⟩

theorem onPieceHashedEvent_core (t : Torrent) (i : Nat) (ok : Bool) (t1 : Torrent)
    (effs : List Effect) (h : t.onPieceHashedEvent i ok = .ok (t1, effs)) :
    t1.conns.length = t.conns.length ∧ t1.halfOpen = t.halfOpen ∧
    t1.maxEstablishedConnections = t.maxEstablishedConnections ∧
    t1.maxHalfOpenConns = t.maxHalfOpenConns := by
  unfold Torrent.onPieceHashedEvent at h
  rcases hph : t.pieceHashedF i ok with e | ⟨tm, em⟩
  · rw [hph] at h
    simp at h
  · rw [hph] at h
    dsimp only at h
    obtain ⟨hm1, hm2, hm3, hm4⟩ := pieceHashedF_core t i ok tm em hph
    rcases hreg : tm.pieces with _ | reg
    · rw [hreg] at h
      simp at h
    · rw [hreg] at h
      dsimp only at h
      split at h
      · rcases hsa : tm.sendAnnounceToTrackerF .completed with ⟨t2, e2⟩
        rw [hsa] at h
        dsimp only at h
        obtain ⟨ha1, ha2, ha3, ha4⟩ := sendAnn_core tm .completed
        rw [hsa] at ha1 ha2 ha3 ha4
        obtain ⟨hd1, hd2, hd3, hd4⟩ := downloadedAll_core t2
        simp only [Except.ok.injEq, Prod.mk.injEq] at h
        rw [← h.1]
        exact ⟨by rw [hd1, ha1, hm1], by rw [hd2, ha2, hm2], by rw [hd3, ha3, hm3],
               by rw [hd4, ha4, hm4]⟩
      · simp only [Except.ok.injEq, Prod.mk.injEq] at h
        rw [← h.1]
        exact ⟨hm1, hm2, hm3, hm4⟩

theorem dropAllConns_core (t : Torrent) :
    (t.dropAllConns).1.conns = [] ∧ (t.dropAllConns).1.halfOpen = t.halfOpen ∧
    (t.dropAllConns).1.maxEstablishedConnections = t.maxEstablishedConnections ∧
    (t.dropAllConns).1.maxHalfOpenConns = t.maxHalfOpenConns := by
  unfold Torrent.dropAllConns
  rcases hcd : t.closeDhtAnnounceF with ⟨tc, ec⟩
  obtain ⟨h1, h2, h3, h4⟩ := closeDht_core t
  rw [hcd] at h1 h2 h3 h4
  dsimp only
  exact ⟨rfl, h2, h3, h4⟩

theorem dialConns_bounds (t : Torrent) (o : List Nat)
    (hc : t.conns.length ≤ t.maxEstablishedConnections)
    (hh : t.halfOpen.length ≤ t.maxHalfOpenConns) :
    (t.dialConns o).1.conns.length ≤ (t.dialConns o).1.maxEstablishedConnections ∧
    (t.dialConns o).1.halfOpen.length ≤ (t.dialConns o).1.maxHalfOpenConns := by
  obtain ⟨h1, h2, h3, h4⟩ := dialConns_spec t o
  rw [h1, h2, h3]
  exact ⟨hc, h4 hh⟩

theorem step_preserves_bounds (t t1 : Torrent) (hstep : Step t t1)
    (hc : t.conns.length ≤ t.maxEstablishedConnections)
    (hh : t.halfOpen.length ≤ t.maxHalfOpenConns) :
    t1.conns.length ≤ t1.maxEstablishedConnections ∧
    t1.halfOpen.length ≤ t1.maxHalfOpenConns := by
  cases hstep with
  | estConn ci t1 effs adm h =>
    unfold Torrent.establishedConnection at h
    split at h
    · rcases hcd : t.closeDhtAnnounceF with ⟨tc, ec⟩
      rw [hcd] at h
      simp only [Except.ok.injEq, Prod.mk.injEq] at h
      obtain ⟨hc1, hc2, hc3, hc4⟩ := closeDht_core t
      rw [hcd] at hc1 hc2 hc3 hc4
      rw [← h.1]
      rw [hc1, hc2, hc3, hc4]
      exact ⟨hc, hh⟩
    · rename_i hacc
      have hwant : t.wantConns = true := by
        rcases hb : t.wantConns with _ | _
        · rw [hb] at hacc
          simp at hacc
        · rfl
      have hlt : t.conns.length < t.maxEstablishedConnections := by
        unfold Torrent.wantConns at hwant
        simp only [Bool.and_eq_true, decide_eq_true_eq] at hwant
        exact hwant.1
      rcases hreg : t.pieces with _ | reg
      · rw [hreg] at h
        simp at h
      · rw [hreg] at h
        dsimp only at h
        simp only [Except.ok.injEq, Prod.mk.injEq] at h
        rw [← h.1]
        constructor
        · simpa using hlt
        · exact hh
  | pieceHashedEv i ok t1 effs h =>
    obtain ⟨h1, h2, h3, h4⟩ := onPieceHashedEvent_core t i ok t1 effs h
    rw [h1, h2, h3, h4]
    exact ⟨hc, hh⟩
  | connDropped ci oracle =>
    unfold Torrent.droppedConn
    rcases hidx : t.connIndex ci with _ | idx
    · dsimp only
      exact ⟨hc, hh⟩
    · dsimp only
      have hrem : (t.conns.take idx ++ t.conns.drop (idx + 1)).length ≤
          t.maxEstablishedConnections := by
        simp only [List.length_append, List.length_take, List.length_drop]
        omega
      split
      · rcases hdl : ({ t with conns := t.conns.take idx ++ t.conns.drop (idx + 1), peers := t.peers ++ [ci.peer] } : Torrent).dialConns oracle with ⟨t3, e3⟩
        have hb := dialConns_bounds { t with conns := t.conns.take idx ++ t.conns.drop (idx + 1), peers := t.peers ++ [ci.peer] } oracle hrem hh
        rw [hdl] at hb
        exact hb
      · rcases hdl : ({ t with conns := t.conns.take idx ++ t.conns.drop (idx + 1) } : Torrent).dialConns oracle with ⟨t3, e3⟩
        have hb := dialConns_bounds { t with conns := t.conns.take idx ++ t.conns.drop (idx + 1) } oracle hrem hh
        rw [hdl] at hb
        exact hb
  | peersArrived ps oracle =>
    unfold Torrent.gotPeers
    rcases hdl : (t.addFilteredPeersBlacklist ps).dialConns oracle with ⟨t3, e3⟩
    have hb := dialConns_bounds (t.addFilteredPeersBlacklist ps) oracle hc hh
    rw [hdl] at hb
    exact hb
  | halfOpenRemoved p oracle =>
    unfold Torrent.removeHalfOpenF
    have hhd : (hoDelete t.halfOpen p).length ≤ t.maxHalfOpenConns :=
      le_trans (List.length_filter_le _ _) hh
    rcases hdl : ({ t with halfOpen := hoDelete t.halfOpen p } : Torrent).dialConns oracle
      with ⟨t3, e3⟩
    have hb := dialConns_bounds { t with halfOpen := hoDelete t.halfOpen p } oracle hc hhd
    rw [hdl] at hb
    exact hb
  | closeStep t1 effs h =>
    unfold Torrent.closeT at h
    split at h
    · simp at h
    · rcases hda : t.dropAllConns with ⟨td, ed⟩
      rw [hda] at h
      simp only [Except.ok.injEq, Prod.mk.injEq] at h
      obtain ⟨hd0, hd1, hd2, hd3⟩ := dropAllConns_core t
      rw [hda] at hd0 hd1 hd2 hd3
      rw [← h.1]
      dsimp only
      constructor
      · rw [hd0]
        simp
      · rw [hd1, hd3]
        exact hh

/-- C3: in every state reachable from a fresh torrent through the modelled
coordinator transitions, the number of active sessions never exceeds
maxEstablishedConnections (establishedConnection rejects once the cap is
reached) and the number of half-open dials never exceeds maxHalfOpenConns
(the dial loop stops opening dials at the cap). -/
theorem conn_and_halfopen_bounds (cfgMax : Nat) (dt dd ht hd : Bool) (ann : String)
    (t : Torrent) (h : ReachableT (newTorrentT cfgMax dt dd ht hd ann) t) :
    t.conns.length ≤ t.maxEstablishedConnections ∧
    t.halfOpen.length ≤ t.maxHalfOpenConns := by
  unfold ReachableT at h
  induction h with
  | refl => exact ⟨by simp [newTorrentT], by simp [newTorrentT]⟩
  | tail hsteps hstep ih => exact step_preserves_bounds _ _ hstep ih.1 ih.2

/-- C3 witness: the bounds at the initial state itself. -/
theorem conn_and_halfopen_bounds_witness :
    (newTorrentT 55 false false true true "u").conns.length ≤
      (newTorrentT 55 false false true true "u").maxEstablishedConnections ∧
    (newTorrentT 55 false false true true "u").halfOpen.length ≤
      (newTorrentT 55 false false true true "u").maxHalfOpenConns :=
  conn_and_halfopen_bounds 55 false false true true "u" _ Relation.ReflTransGen.refl
